import Mathlib

/-!
Shallow embedding of the content-processing utilities of a static blog:
a slugifier, a tag filter (`src/utils/getPostsByTag.ts`) and an RSS feed
builder (`src/pages/rss.xml.ts`), over the post data model given by the
Markdown frontmatter fields.
-/

/-- Frontmatter of one Markdown post, with the fields the spec lists.
`draft` and `featured` are `Option Bool` because in the source they are
plain JavaScript object fields that may be absent (undefined). -/
structure Frontmatter where
  author : String
  datetime : String
  title : String
  slug : String
  featured : Option Bool
  draft : Option Bool
  tags : List String
  ogImage : String
  description : String
deriving Repr, DecidableEq

/-- A loaded Markdown post as the utilities see it (astro `MarkdownInstance`
restricted to the `frontmatter` field, the only one the utilities read). -/
structure MarkdownInstance where
  frontmatter : Frontmatter
deriving Repr, DecidableEq

/-- Characters kept by the slugifier (letters and digits); every other
character is separator material. -/
def isKeep (c : Char) : Bool := c.isAlphanum

/-- Splits a character list at the characters failing `keep`: returns the
first run of keep characters and the list of the remaining runs (runs may be
empty when separators are adjacent or at the ends). -/
def splitRuns (keep : Char → Bool) : List Char → List Char × List (List Char)
  | [] => ([], [])
  | c :: cs =>
    let p := splitRuns keep cs
    if keep c then (c :: p.1, p.2) else ([], p.1 :: p.2)

/-- All runs of keep characters of a list, in order, empties included. -/
def runsOf (keep : Char → Bool) (l : List Char) : List (List Char) :=
  (splitRuns keep l).1 :: (splitRuns keep l).2

/-- All runs of letters and digits of a list, in order, empties included. -/
def keepWords (l : List Char) : List (List Char) :=
  runsOf isKeep l

/-- Joins words with a single dash between consecutive words. -/
def joinDash : List (List Char) → List Char
  | [] => []
  | [w] => w
  | w :: ws => w ++ '-' :: joinDash ws

/-- Modelled from the spec: `src/utils/slugify.ts` is not among the provided
sources. Per the spec the slugifier lower-cases its input, replaces runs of
whitespace and punctuation by a single separator, and trims leading and
trailing separators. -/
def slugify (s : String) : String :=
  ⟨joinDash ((keepWords (s.data.map Char.toLower)).filter (fun w => !w.isEmpty))⟩

/-- Modelled from the spec: element-wise slugification of a tag list, as
exported (with this spelling) by `src/utils/slugify.ts` and used by
`getPostsByTag`. -/
def slufigyAll (ts : List String) : List String := ts.map slugify

/-- The tag filter of `src/utils/getPostsByTag.ts`: keeps the posts whose
slugified tag list contains the given tag. -/
def getPostsByTag (posts : List MarkdownInstance) (tag : String) : List MarkdownInstance :=
  posts.filter (fun post => (slufigyAll post.frontmatter.tags).contains tag)

/-- The site-wide configuration record of `src/config.ts`. -/
structure SiteConfig where
  website : String
  author : String
  desc : String
  title : String
  ogImage : String
  lightAndDarkMode : Bool
  postPerPage : Nat
deriving Repr

/-- The `SITE` constant of `src/config.ts`. -/
def SITE : SiteConfig :=
  { website := "https://abgier-avraha.github.io/"
    author := "Abgier Avraha"
    desc := "A blog for React TypeScript and Dotnet developers."
    title := "Producing Value"
    ogImage := "default-og.png"
    lightAndDarkMode := true
    postPerPage := 3 }

/-- JavaScript truthiness of an optional boolean field: `undefined` (here
`none`) is falsy, otherwise the boolean itself. -/
def truthy : Option Bool → Bool
  | some b => b
  | none => false

/-- Value of a list of decimal digit characters read left to right. -/
def digitsVal (l : List Char) : Nat :=
  l.foldl (fun n c => n * 10 + (c.toNat - 48)) 0

/-- Parses a nonempty all-digit character list into a number. -/
def toNatOpt (l : List Char) : Option Nat :=
  if !l.isEmpty && l.all Char.isDigit then some (digitsVal l) else none

/-- Modelled from the spec: the JavaScript `Date` constructor applied to the
frontmatter `datetime` string (an ISO-8601 timestamp per the spec). The model
parses the `YYYY-MM-DD` part, before any `T`, into a numeric timestamp;
`none` stands for an Invalid Date (unparseable input). -/
def parseDatetime (s : String) : Option Nat :=
  let datePart := (runsOf (fun c => c != 'T') s.data).headD []
  match runsOf (fun c => c != '-') datePart with
  | [y, m, d] =>
    match toNatOpt y, toNatOpt m, toNatOpt d with
    | some yn, some mn, some dn =>
      if 1 ≤ mn ∧ mn ≤ 12 ∧ 1 ≤ dn ∧ dn ≤ 31 then
        some (yn * 10000 + mn * 100 + dn)
      else none
    | _, _, _ => none
  | _ => none

/-- Modelled from the spec: the default export of `src/utils/slugify.ts`
applied to a whole frontmatter, as the feed builder does for the link. Per
the spec, the feed link is the fixed path prefix concatenated with the
Post's slug. -/
def slugifyFrontmatter (fm : Frontmatter) : String := fm.slug

/-- One RSS feed item, with the fields built in `src/pages/rss.xml.ts`. -/
structure RSSFeedItem where
  link : String
  title : String
  description : String
  pubDate : Option Nat
deriving Repr, DecidableEq

/-- The argument record passed to `rss(...)` in `src/pages/rss.xml.ts`. -/
structure RSSFeed where
  title : String
  description : String
  site : String
  items : List RSSFeedItem
deriving Repr, DecidableEq

/-- The item constructed from one non-draft post by the map inside `get` in
`src/pages/rss.xml.ts`. -/
def toFeedItem (p : MarkdownInstance) : RSSFeedItem :=
  { link := "posts/" ++ slugifyFrontmatter p.frontmatter
    title := p.frontmatter.title
    description := p.frontmatter.description
    pubDate := parseDatetime p.frontmatter.datetime }

/-- The `get` endpoint of `src/pages/rss.xml.ts`, parameterised by the posts
the module-level glob loads: drops draft posts (JavaScript `!draft` test) and
maps the rest to feed items. -/
def get (posts : List MarkdownInstance) : RSSFeed :=
  { title := SITE.title
    description := SITE.desc
    site := SITE.website
    items := (posts.filter (fun p => !truthy p.frontmatter.draft)).map toFeedItem }

example : slugify "Hello World!" = "hello-world" := by decide
example : slugify "Guide" = "guide" := by decide
example : parseDatetime "2022-12-1T11:00:00.348Z" = some 20221201 := by decide
example : parseDatetime "not-a-date" = none := by decide

/-! Helper lemmas about characters and the run-splitting primitive. -/

/-- `Char.ofNat` of a valid code point reads back as that code point. -/
theorem toNat_ofNat_valid (n : Nat) (h : n.isValidChar) : (Char.ofNat n).toNat = n := by
  simp only [Char.ofNat, h, dif_pos, Char.ofNatAux, Char.toNat, UInt32.toNat]
  rfl

/-- Lower-casing a character is idempotent. -/
theorem toLower_toLower (c : Char) : (c.toLower).toLower = c.toLower := by
  unfold Char.toLower
  by_cases h : c.toNat ≥ 65 ∧ c.toNat ≤ 90
  · have hv : Nat.isValidChar (c.toNat + 32) := by
      left; omega
    rw [if_pos h]
    simp only [toNat_ofNat_valid _ hv]
    rw [if_neg (by omega)]
  · rw [if_neg h, if_neg h]

/-- Every character inside a run produced by `runsOf keep` satisfies `keep`
and comes from the input list. -/
theorem runsOf_chars (keep : Char → Bool) :
    ∀ l : List Char, ∀ w ∈ runsOf keep l, ∀ c ∈ w, keep c = true ∧ c ∈ l := by
  intro l
  induction l with
  | nil =>
    intro w hw c hc
    simp [runsOf, splitRuns] at hw
    subst hw
    simp at hc
  | cons a cs ih =>
    intro w hw c hc
    by_cases ha : keep a
    · simp only [runsOf, splitRuns, ha, if_pos] at hw
      rcases List.mem_cons.mp hw with rfl | hw2
      · rcases List.mem_cons.mp hc with rfl | hc2
        · exact ⟨ha, List.mem_cons_self _ _⟩
        · have := ih (splitRuns keep cs).1 (List.mem_cons_self _ _) c hc2
          exact ⟨this.1, List.mem_cons_of_mem _ this.2⟩
      · have := ih w (List.mem_cons_of_mem _ hw2) c hc
        exact ⟨this.1, List.mem_cons_of_mem _ this.2⟩
    · simp only [runsOf, splitRuns, ha, if_neg, Bool.false_eq_true, not_false_iff] at hw
      rcases List.mem_cons.mp hw with rfl | hw2
      · simp at hc
      · have := ih w hw2 c hc
        exact ⟨this.1, List.mem_cons_of_mem _ this.2⟩

/-- Splitting a list that starts with a run of keep characters prepends that
run to the first component. -/
theorem splitRuns_append_keepAll (keep : Char → Bool) (w l : List Char)
    (hw : ∀ c ∈ w, keep c = true) :
    splitRuns keep (w ++ l) = (w ++ (splitRuns keep l).1, (splitRuns keep l).2) := by
  induction w with
  | nil => simp
  | cons a w2 ih =>
    have ha : keep a = true := hw a (List.mem_cons_self _ _)
    have ih2 := ih (fun c hc => hw c (List.mem_cons_of_mem _ hc))
    simp only [List.cons_append, splitRuns, ha, if_pos]
    rw [List.append_eq, ih2]

/-- Splitting a list that starts with a separator character pushes an empty
run in front. -/
theorem splitRuns_sep (keep : Char → Bool) (c : Char) (hc : keep c = false)
    (l : List Char) :
    splitRuns keep (c :: l) = ([], (splitRuns keep l).1 :: (splitRuns keep l).2) := by
  simp [splitRuns, hc]

/-- Every character of `joinDash W` is in some word of `W` or is the dash. -/
theorem mem_joinDash :
    ∀ W : List (List Char), ∀ c ∈ joinDash W, (∃ w ∈ W, c ∈ w) ∨ c = '-' := by
  intro W
  induction W with
  | nil =>
    intro c hc
    simp [joinDash] at hc
  | cons w W2 ih =>
    intro c hc
    cases W2 with
    | nil =>
      exact Or.inl ⟨w, List.mem_cons_self _ _, hc⟩
    | cons w2 W3 =>
      simp only [joinDash] at hc
      rcases List.mem_append.mp hc with hcw | hcrest
      · exact Or.inl ⟨w, List.mem_cons_self _ _, hcw⟩
      · rcases List.mem_cons.mp hcrest with rfl | htail
        · exact Or.inr rfl
        · rcases ih c htail with ⟨w3, hw3, hcw3⟩ | hdash
          · exact Or.inl ⟨w3, List.mem_cons_of_mem _ hw3, hcw3⟩
          · exact Or.inr hdash

/-- Splitting `joinDash W` back into keep-runs recovers `W`, when every word
of `W` is nonempty and made of keep characters only. -/
theorem keepWords_joinDash :
    ∀ W : List (List Char),
      (∀ w ∈ W, w ≠ [] ∧ ∀ c ∈ w, isKeep c = true) →
      (keepWords (joinDash W)).filter (fun w => !w.isEmpty) = W := by
  intro W
  induction W with
  | nil =>
    intro _
    rfl
  | cons w W2 ih =>
    intro hW
    have hw := hW w (List.mem_cons_self _ _)
    have hwne : (!w.isEmpty) = true := by
      cases w with
      | nil => exact absurd rfl hw.1
      | cons a l => rfl
    cases W2 with
    | nil =>
      show (keepWords (joinDash [w])).filter (fun w => !w.isEmpty) = [w]
      have h1 : joinDash [w] = w ++ [] := by simp [joinDash]
      rw [h1]
      unfold keepWords runsOf
      rw [splitRuns_append_keepAll isKeep w [] hw.2]
      simp [splitRuns, List.filter_cons, hwne]
    | cons w2 W3 =>
      have hdash : isKeep '-' = false := rfl
      have h1 : joinDash (w :: w2 :: W3) = w ++ '-' :: joinDash (w2 :: W3) := rfl
      rw [h1]
      unfold keepWords runsOf
      rw [splitRuns_append_keepAll isKeep w _ hw.2,
          splitRuns_sep isKeep '-' hdash]
      have ih2 := ih (fun x hx => hW x (List.mem_cons_of_mem _ hx))
      unfold keepWords runsOf at ih2
      simp only [List.append_nil]
      rw [List.filter_cons_of_pos, ih2]
      exact hwne

/-- Mapping lower-casing over a list of characters it fixes is the identity. -/
theorem map_toLower_fixed (l : List Char) (h : ∀ c ∈ l, Char.toLower c = c) :
    l.map Char.toLower = l := by
  induction l with
  | nil => rfl
  | cons a t ih =>
    simp only [List.map_cons]
    rw [h a (List.mem_cons_self _ _), ih (fun c hc => h c (List.mem_cons_of_mem _ hc))]

/-- Every character of the slugifier's output is fixed by lower-casing. -/
theorem slug_out_fixed (s : String) :
    ∀ c ∈ joinDash ((keepWords (s.data.map Char.toLower)).filter (fun w => !w.isEmpty)),
      Char.toLower c = c := by
  intro c hc
  rcases mem_joinDash _ c hc with ⟨w, hw, hcw⟩ | rfl
  · have h1 := List.mem_filter.mp hw
    have h2 := (runsOf_chars isKeep _ w h1.1 c hcw).2
    rcases List.mem_map.mp h2 with ⟨d, _, rfl⟩
    exact toLower_toLower d
  · rfl

/-- Every word of the slugifier's word list is nonempty and all-keep. -/
theorem slug_words_ok (s : String) :
    ∀ w ∈ (keepWords (s.data.map Char.toLower)).filter (fun w => !w.isEmpty),
      w ≠ [] ∧ ∀ c ∈ w, isKeep c = true := by
  intro w hw
  have h1 := List.mem_filter.mp hw
  constructor
  · intro hnil
    rw [hnil] at h1
    simp at h1
  · intro c hc
    exact (runsOf_chars isKeep _ w h1.1 c hc).1

/-- C6: slugify is deterministic (it is a pure function of its input) and
idempotent: slugifying an already slugified string changes nothing. -/
theorem C6_slugify_idempotent (s : String) : slugify (slugify s) = slugify s := by
  show slugify ⟨joinDash ((keepWords (s.data.map Char.toLower)).filter (fun w => !w.isEmpty))⟩
      = slugify s
  unfold slugify
  congr 1
  show joinDash ((keepWords ((joinDash ((keepWords (s.data.map Char.toLower)).filter
      (fun w => !w.isEmpty))).map Char.toLower)).filter (fun w => !w.isEmpty))
      = joinDash ((keepWords (s.data.map Char.toLower)).filter (fun w => !w.isEmpty))
  rw [map_toLower_fixed _ (slug_out_fixed s), keepWords_joinDash _ (slug_words_ok s)]

/-! Concrete posts used in the spec's worked example and as witnesses. -/

/-- Post A of the spec example: title "A", tags ["Guide"], draft false. -/
def postA : MarkdownInstance :=
  { frontmatter :=
    { author := "Abgier Avraha"
      datetime := "2022-12-1T11:00:00.348Z"
      title := "A"
      slug := "a"
      featured := some false
      draft := some false
      tags := ["Guide"]
      ogImage := ""
      description := "post A" } }

/-- Post B of the spec example: title "B", tags ["guide"], draft true. -/
def postB : MarkdownInstance :=
  { frontmatter :=
    { author := "Abgier Avraha"
      datetime := "2022-12-2T11:00:00.348Z"
      title := "B"
      slug := "b"
      featured := some false
      draft := some true
      tags := ["guide"]
      ogImage := ""
      description := "post B" } }

/-- A non-draft post whose frontmatter datetime is not a parseable date. -/
def postBadDate : MarkdownInstance :=
  { frontmatter :=
    { author := "Abgier Avraha"
      datetime := "not-a-date"
      title := "Bad date"
      slug := "bad-date"
      featured := some false
      draft := some false
      tags := ["guide"]
      ogImage := ""
      description := "post with malformed datetime" } }

/-- A non-draft post carrying the tag "guide" twice, in two spellings that
slugify to the same value. -/
def postDupTags : MarkdownInstance :=
  { frontmatter :=
    { author := "Abgier Avraha"
      datetime := "2022-12-3T11:00:00.348Z"
      title := "Dup"
      slug := "dup"
      featured := some false
      draft := some false
      tags := ["Guide", "guide"]
      ogImage := ""
      description := "post with duplicate slugified tags" } }

/-! The claims. -/

/-- C1, counterexample: on the spec's example posts the tag filter keeps
both posts, not only post A — `getPostsByTag` never consults the draft flag,
and post B's tag "guide" matches too. -/
theorem C1_counterexample :
    getPostsByTag [postA, postB] "guide" ≠ [postA] ∧
    getPostsByTag [postA, postB] "guide" = [postA, postB] := by
  constructor
  · decide
  · decide

/-- C1 (amended): for the example collection of posts A (title "A", tags
["Guide"], draft false) and B (title "B", tags ["guide"], draft true),
filtering by the tag "guide" returns both posts in order: the tag filter
matches on slugified tags only and does not exclude drafts. -/
theorem C1_filter_example :
    getPostsByTag [postA, postB] "guide" = [postA, postB] := by
  decide

/-- C3: the tag filter returns a subsequence of the input (original order
preserved), and a post is in the result exactly when it is an input post
whose slugified tag list contains the target tag under exact string
equality. -/
theorem C3_filter_subsequence (posts : List MarkdownInstance) (tag : String) :
    (getPostsByTag posts tag).Sublist posts ∧
    ∀ p, p ∈ getPostsByTag posts tag ↔
      p ∈ posts ∧ tag ∈ slufigyAll p.frontmatter.tags := by
  constructor
  · exact List.filter_sublist posts
  · intro p
    unfold getPostsByTag
    rw [List.mem_filter]
    simp [List.elem_iff]

/-- C2: when every post's draft flag is a definite boolean, the feed's item
list is exactly the map over the posts whose draft flag is false: one item
per non-draft post, in the same relative order, with the same count. -/
theorem C2_feed_exactly_nondrafts (posts : List MarkdownInstance)
    (h : ∀ p ∈ posts, p.frontmatter.draft ≠ none) :
    (get posts).items
      = (posts.filter (fun p => p.frontmatter.draft == some false)).map toFeedItem ∧
    (get posts).items.length
      = (posts.filter (fun p => p.frontmatter.draft == some false)).length := by
  have hfil : posts.filter (fun p => !truthy p.frontmatter.draft)
      = posts.filter (fun p => p.frontmatter.draft == some false) := by
    apply List.filter_congr
    intro p hp
    cases hd : p.frontmatter.draft with
    | none => exact absurd hd (h p hp)
    | some b => cases b <;> simp [truthy, hd]
  constructor
  · show (posts.filter (fun p => !truthy p.frontmatter.draft)).map toFeedItem = _
    rw [hfil]
  · show ((posts.filter (fun p => !truthy p.frontmatter.draft)).map toFeedItem).length = _
    rw [hfil, List.length_map]

/-- C2 witness: the feed invariant instantiated on the example posts. -/
theorem C2_feed_exactly_nondrafts_witness :
    (get [postA, postB]).items
      = (([postA, postB]).filter (fun p => p.frontmatter.draft == some false)).map toFeedItem ∧
    (get [postA, postB]).items.length
      = (([postA, postB]).filter (fun p => p.frontmatter.draft == some false)).length :=
  C2_feed_exactly_nondrafts [postA, postB] (by decide)

/-- C4: every non-draft post yields a feed item whose link is the fixed
prefix "posts/" followed by the post's slug, whose title and description are
copied verbatim, and whose publish date is the parsed datetime. -/
theorem C4_feed_item_fields (posts : List MarkdownInstance) (p : MarkdownInstance)
    (hp : p ∈ posts) (hd : truthy p.frontmatter.draft = false) :
    ∃ it ∈ (get posts).items,
      it.link = "posts/" ++ p.frontmatter.slug ∧
      it.title = p.frontmatter.title ∧
      it.description = p.frontmatter.description ∧
      it.pubDate = parseDatetime p.frontmatter.datetime := by
  refine ⟨toFeedItem p, ?_, rfl, rfl, rfl, rfl⟩
  show toFeedItem p ∈ (posts.filter (fun q => !truthy q.frontmatter.draft)).map toFeedItem
  exact List.mem_map_of_mem _ (List.mem_filter.mpr ⟨hp, by rw [hd]; rfl⟩)

/-- C4 witness: the feed item fields instantiated on post A. -/
theorem C4_feed_item_fields_witness :
    ∃ it ∈ (get [postA]).items,
      it.link = "posts/" ++ postA.frontmatter.slug ∧
      it.title = postA.frontmatter.title ∧
      it.description = postA.frontmatter.description ∧
      it.pubDate = parseDatetime postA.frontmatter.datetime :=
  C4_feed_item_fields [postA] postA (by decide) (by decide)

/-- C5, counterexample: a non-draft post with the unparseable datetime
"not-a-date" still yields a feed item — the builder does not fail and the
item's publish date is the invalid-date value. -/
theorem C5_counterexample :
    parseDatetime postBadDate.frontmatter.datetime = none ∧
    (get [postBadDate]).items = [toFeedItem postBadDate] ∧
    (toFeedItem postBadDate).pubDate = none := by
  refine ⟨by decide, by decide, by decide⟩

/-- C5 (amended): when a post's frontmatter datetime is unparseable the feed
builder does not fail the build: it still produces a feed item for the post
(if non-draft), whose publish date is the invalid-date value. -/
theorem C5_invalid_date_item (posts : List MarkdownInstance) (p : MarkdownInstance)
    (hp : p ∈ posts) (hd : truthy p.frontmatter.draft = false)
    (hbad : parseDatetime p.frontmatter.datetime = none) :
    ∃ it ∈ (get posts).items, it.title = p.frontmatter.title ∧ it.pubDate = none := by
  refine ⟨toFeedItem p, ?_, rfl, hbad⟩
  show toFeedItem p ∈ (posts.filter (fun q => !truthy q.frontmatter.draft)).map toFeedItem
  exact List.mem_map_of_mem _ (List.mem_filter.mpr ⟨hp, by rw [hd]; rfl⟩)

/-- C5 amended-claim witness: instantiated on the bad-date post. -/
theorem C5_invalid_date_item_witness :
    ∃ it ∈ (get [postBadDate]).items,
      it.title = postBadDate.frontmatter.title ∧ it.pubDate = none :=
  C5_invalid_date_item [postBadDate] postBadDate (by decide) (by decide) (by decide)

/-- C7: element-wise slugification preserves length and order: the result has
exactly one slug per input tag, at the same index, and duplicates are kept
positionally. -/
theorem C7_slufigyAll_pointwise (ts : List String) :
    (slufigyAll ts).length = ts.length ∧
    ∀ i (h1 : i < (slufigyAll ts).length) (h2 : i < ts.length),
      (slufigyAll ts).get ⟨i, h1⟩ = slugify (ts.get ⟨i, h2⟩) := by
  constructor
  · simp [slufigyAll]
  · intro i h1 h2
    simp [slufigyAll, List.getElem_map]

/-- C7 witness: two tags slugifying to the same value are both kept, in
order. -/
theorem C7_slufigyAll_pointwise_witness :
    (slufigyAll ["Guide", "guide"]).length = (["Guide", "guide"] : List String).length ∧
    (slufigyAll ["Guide", "guide"]).get ⟨0, by decide⟩
      = slugify ((["Guide", "guide"] : List String).get ⟨0, by decide⟩) ∧
    (slufigyAll ["Guide", "guide"]).get ⟨1, by decide⟩
      = slugify ((["Guide", "guide"] : List String).get ⟨1, by decide⟩) :=
  ⟨(C7_slufigyAll_pointwise ["Guide", "guide"]).1,
   (C7_slufigyAll_pointwise ["Guide", "guide"]).2 0 (by decide) (by decide),
   (C7_slufigyAll_pointwise ["Guide", "guide"]).2 1 (by decide) (by decide)⟩

/-- C8: when no post's slugified tag list contains the target tag, the tag
filter returns the empty sequence (a value, not an error). -/
theorem C8_no_match_empty (posts : List MarkdownInstance) (tag : String)
    (h : ∀ p ∈ posts, tag ∉ slufigyAll p.frontmatter.tags) :
    getPostsByTag posts tag = [] := by
  unfold getPostsByTag
  rw [List.filter_eq_nil_iff]
  intro p hp hcontains
  exact h p hp (List.elem_iff.mp hcontains)

/-- C8 witness: no post carries the tag "typescript", and the filter returns
the empty list. -/
theorem C8_no_match_empty_witness :
    getPostsByTag [postA, postB] "typescript" = [] :=
  C8_no_match_empty [postA, postB] "typescript" (by decide)

/-- Replaces an absent draft flag by an explicit boolean: `none` becomes
`some false`, definite flags are unchanged. -/
def withDraftDefaulted (p : MarkdownInstance) : MarkdownInstance :=
  { frontmatter := { p.frontmatter with draft := some (truthy p.frontmatter.draft) } }

/-- Defaulting absent draft flags to false does not change the feed items. -/
theorem filter_map_defaulted (posts : List MarkdownInstance) :
    ((posts.map withDraftDefaulted).filter
        (fun p => !truthy p.frontmatter.draft)).map toFeedItem
      = (posts.filter (fun p => !truthy p.frontmatter.draft)).map toFeedItem := by
  induction posts with
  | nil => rfl
  | cons p ps ih =>
    simp only [List.map_cons, List.filter_cons]
    have hpred : (!truthy (withDraftDefaulted p).frontmatter.draft)
        = (!truthy p.frontmatter.draft) := by
      obtain ⟨⟨au, dt, ti, sl, fe, dr, tg, og, de⟩⟩ := p
      cases dr <;> rfl
    rw [hpred]
    by_cases h : (!truthy p.frontmatter.draft) = true
    · rw [if_pos h, if_pos h, List.map_cons, List.map_cons, ih]
      rfl
    · rw [if_neg h, if_neg h]
      exact ih

/-- C9: the draft exclusion is a falsiness test, not an equality test with
false: the feed keeps exactly the posts whose draft flag is not literally
true, and replacing every absent draft flag by an explicit false leaves the
feed items unchanged. -/
theorem C9_draft_falsiness (posts : List MarkdownInstance) :
    (get posts).items
      = (posts.filter (fun p => !(p.frontmatter.draft == some true))).map toFeedItem ∧
    (get (posts.map withDraftDefaulted)).items = (get posts).items := by
  constructor
  · show (posts.filter (fun p => !truthy p.frontmatter.draft)).map toFeedItem = _
    congr 1
    apply List.filter_congr
    intro p _
    cases hd : p.frontmatter.draft with
    | none => rfl
    | some b => cases b <;> rfl
  · exact filter_map_defaulted posts

/-- C10: a post whose slugified tag list contains the target tag more than
once still contributes exactly its own occurrences to the filter result — 
membership is per post, not per matching tag occurrence — and the result is
a subsequence of the input, so each kept post sits at its original relative
position. -/
theorem C10_duplicate_tags_once (posts : List MarkdownInstance) (tag : String)
    (p : MarkdownInstance)
    (h : 2 ≤ (slufigyAll p.frontmatter.tags).count tag) :
    (getPostsByTag posts tag).Sublist posts ∧
    (getPostsByTag posts tag).count p = posts.count p := by
  constructor
  · exact List.filter_sublist posts
  · unfold getPostsByTag
    apply List.count_filter
    have hmem : tag ∈ slufigyAll p.frontmatter.tags :=
      List.count_pos_iff.mp (by omega)
    exact List.elem_iff.mpr hmem

/-- C10 witness: a post tagged "Guide" and "guide" (both slugifying to
"guide") appears exactly once in the result for tag "guide". -/
theorem C10_duplicate_tags_once_witness :
    (getPostsByTag [postDupTags] "guide").Sublist [postDupTags] ∧
    (getPostsByTag [postDupTags] "guide").count postDupTags
      = ([postDupTags] : List MarkdownInstance).count postDupTags :=
  C10_duplicate_tags_once [postDupTags] "guide" postDupTags (by decide)
